import Mathlib

/-!
Verification of the Cosmos DB container-migration tool.

The development shallowly embeds the two migration pipelines of the
repository:

* `app.py` (`migrate`, `item_exists_in_target`, `validate_data`): a
  sequential loop over all source items that consults a destination
  existence check first, creates absent items, writes a line to the
  `skipped_files.txt` ledger for every skipped item, and emits socket
  progress events.
* `cosmos_data_migration.py` (`migrate_batch`, `migrate_data`,
  `upsert_item_with_retry`, `verify_data`): a batched pipeline that
  slices the item list into `batch_size` chunks, creates items,
  collects 409-conflict items into `not_migrated_items`, and re-raises
  every other error.

External document-store calls are modelled by per-item outcome values
(`ReadOutcome`, `CreateOutcome`): the environment decides how each
`read_item` / `create_item` call ends, and the embedding replays the
Python control flow on those outcomes.  A raised exception that escapes
the loop is modelled by `Option.none`.  Time stamps are opaque naturals;
progress percentages are exact rationals.
-/

/-- A source record: `app.py` accesses `item['id']` and
`item['partition_key']`; everything else is opaque and never inspected,
so the embedding keeps only these two fields. -/
structure Record where
  id : Nat
  partition_key : Nat
deriving DecidableEq

/-- Result of the destination point read `read_item` performed by
`item_exists_in_target` (app.py lines 84-100): the read returns the item
(`ok`), raises a not-found error (`notFound`), or raises any other
exception such as a network error (`netError`). -/
inductive ReadOutcome where
  | ok
  | notFound
  | netError
deriving DecidableEq

/-- Result of a destination `create_item` call: success, a conflict
(HTTP 409 in `migrate_batch`, a message containing Conflict in
`app.migrate`), or any other error, which the Python code re-raises. -/
inductive CreateOutcome where
  | ok
  | conflict
  | otherError
deriving DecidableEq

/-- Environment for one item of the `app.migrate` loop: how the
destination answers the point read, and, if a create is attempted, how
the create ends. -/
structure ItemEnv where
  read : ReadOutcome
  create : CreateOutcome
deriving DecidableEq

/-- Reasons a record is skipped.  The code produces `alreadyExists`
(existence check hit) and `conflict` (create returned Conflict);
`permanentFailure` is the reason named by the spec for retry
exhaustion — the code has no path that produces it, which the theorems
below make precise. -/
inductive SkipReason where
  | alreadyExists
  | conflict
  | permanentFailure
deriving DecidableEq

/-- A skip event: which record was skipped and why. -/
structure SkipEntry where
  record_id : Nat
  reason : SkipReason
deriving DecidableEq

/-- One line of the `skipped_files.txt` ledger, as `app.migrate` writes
it: a single run header carrying the migration date-time, and one
`Skipped File ID: <id>` line per skipped record.  The per-record line
carries only the id. -/
inductive LedgerLine where
  | header (timestamp : Nat)
  | skippedId (id : Nat)
deriving DecidableEq

/-- Kind of a percentage-carrying socket emission of `app.migrate`:
the skip-path emission (carrying a `file_exists` message), the
per-migrated-item progress emission, and the final completion
emission. -/
inductive EmissionKind where
  | fileExists
  | progress
  | final
deriving DecidableEq

/-- A socket emission together with the `progress_percentage` value it
carries. -/
structure Emission where
  kind : EmissionKind
  pct : ℚ
deriving DecidableEq

/-- External destination calls made while processing one item, in
order: the existence-check point read, and the create attempt. -/
inductive DestCall where
  | readCheck (id partition_key : Nat)
  | createItem (id : Nat)
deriving DecidableEq

/-- Mutable state of one `app.migrate` run: the `successfully_migrated_count`
counter, the skip events, the ledger file contents appended during this
run, the emissions issued so far, and the current `progress_percentage`
variable. -/
structure MigState where
  migrated : Nat
  skips : List SkipEntry
  ledger : List LedgerLine
  emissions : List Emission
  pct : ℚ
deriving DecidableEq

/-- Embeds `item_exists_in_target` (app.py lines 84-100): the point read
is attempted; a successful read returns `True`; every raised exception —
not-found and network errors alike — is caught by the bare
`except Exception` and yields `False`.  The function is total. -/
def item_exists_in_target : ReadOutcome → Bool
  | .ok => true
  | .notFound => false
  | .netError => false

/-- Embeds one iteration of the `for i, item in enumerate(source_items)`
loop of `app.migrate` (app.py lines 143-183).  `source_count` is the
count taken at run start, `i` the 0-based index of the item.  Returns
the destination calls made for this item and `some` updated state, or
`none` when the iteration re-raises (a non-conflict create error), which
aborts the run.  Note that the skip branches do not update
`progress_percentage`: their emissions carry the previous value. -/
def processItem (source_count i : Nat) (r : Record) (env : ItemEnv) (st : MigState) :
    List DestCall × Option MigState :=
  if item_exists_in_target env.read then
    ([.readCheck r.id r.partition_key],
     some { st with
       skips := st.skips ++ [⟨r.id, .alreadyExists⟩],
       ledger := st.ledger ++ [.skippedId r.id],
       emissions := st.emissions ++ [⟨.fileExists, st.pct⟩] })
  else
    match env.create with
    | .ok =>
      let newPct : ℚ := (((i : ℚ) + 1) / (source_count : ℚ)) * 100
      ([.readCheck r.id r.partition_key, .createItem r.id],
       some { st with
         migrated := st.migrated + 1,
         pct := newPct,
         emissions := st.emissions ++ [⟨.progress, newPct⟩] })
    | .conflict =>
      ([.readCheck r.id r.partition_key, .createItem r.id],
       some { st with
         skips := st.skips ++ [⟨r.id, .conflict⟩],
         ledger := st.ledger ++ [.skippedId r.id],
         emissions := st.emissions ++ [⟨.fileExists, st.pct⟩] })
    | .otherError =>
      ([.readCheck r.id r.partition_key, .createItem r.id], none)

/-- Runs the `app.migrate` loop from index `i` and state `st` over the
remaining items; at the end of the list the code emits the final
completion event with the literal percentage 100.  `none` models the
run aborting through the outer exception handler. -/
def migrateFrom (source_count : Nat) : Nat → MigState → List (Record × ItemEnv) →
    List DestCall × Option MigState
  | _, st, [] =>
    ([], some { st with emissions := st.emissions ++ [⟨.final, 100⟩] })
  | i, st, (r, env) :: rest =>
    match processItem source_count i r env st with
    | (acts, some st') =>
      let res := migrateFrom source_count (i + 1) st' rest
      (acts ++ res.1, res.2)
    | (acts, none) => (acts, none)

/-- Initial `app.migrate` state: zero counters, the ledger holding the
run header line with the migration date-time, no emissions yet, and
`progress_percentage = 0`. -/
def initState (ts : Nat) : MigState :=
  { migrated := 0, skips := [], ledger := [.header ts], emissions := [], pct := 0 }

/-- Embeds `app.migrate` (app.py lines 102-195) on a consistent
snapshot: `source_count = count_items(...)` equals the length of the
`read_all_items` result.  `ts` is the run header date-time. -/
def migrate (ts : Nat) (items : List (Record × ItemEnv)) : List DestCall × Option MigState :=
  migrateFrom items.length 0 (initState ts) items

/-- The spec splits the skip events into the skipped and the failed:
skipped are the `AlreadyExists` and `Conflict` entries. -/
def skipped_count (st : MigState) : Nat :=
  st.skips.countP (fun e => !(e.reason == SkipReason.permanentFailure))

/-- Failed records are the `PermanentFailure` skip entries. -/
def failed_count (st : MigState) : Nat :=
  st.skips.countP (fun e => e.reason == SkipReason.permanentFailure)

/-- Destination-store environment for one record of the deterministic
store model: the point read succeeds exactly when the id is present,
and a create (only attempted when the id is absent) succeeds. -/
def storeEnv (dest : List Nat) (r : Record) : ItemEnv :=
  ⟨if r.id ∈ dest then .ok else .notFound, .ok⟩

/-- The `app.migrate` loop run against a live destination store, for
the idempotence analysis: the destination is the list of record ids it
holds, each item is processed by `processItem` under `storeEnv`, and a
successful create inserts the id.  In this environment `processItem`
never aborts; the `none` branch is unreachable. -/
def migrateStoreFrom (source_count : Nat) : Nat → MigState → List Nat → List Record →
    MigState × List Nat
  | _, st, dest, [] => ({ st with emissions := st.emissions ++ [⟨.final, 100⟩] }, dest)
  | i, st, dest, r :: rest =>
    match processItem source_count i r (storeEnv dest r) st with
    | (_, some st') =>
      migrateStoreFrom source_count (i + 1) st' (if r.id ∈ dest then dest else r.id :: dest) rest
    | (_, none) => (st, dest)

/-- One full `app.migrate` run against a destination store holding
`dest`, returning the final run state and the destination contents. -/
def migrateStore (ts : Nat) (dest : List Nat) (items : List Record) : MigState × List Nat :=
  migrateStoreFrom items.length 0 (initState ts) dest items

/-- Embeds the Python slicing `items[i:i+batch_size]` loop of
`migrate_data` (cosmos_data_migration.py lines 97-99): successive
`batch_size`-sized slices of the list. -/
def chunkList (bs : Nat) (xs : List α) : List (List α) :=
  if h : bs = 0 ∨ xs.isEmpty = true then []
  else xs.take bs :: chunkList bs (xs.drop bs)
termination_by xs.length
decreasing_by
  push_neg at h
  obtain ⟨h1, h2⟩ := h
  have hx : 0 < xs.length := by
    cases xs with
    | nil => simp at h2
    | cons a l => simp
  have hb : 0 < bs := Nat.pos_of_ne_zero h1
  simp only [List.length_drop]
  omega

/-- Embeds `migrate_batch` (cosmos_data_migration.py lines 79-91): each
item is created in order; a 409 conflict appends the item to
`not_migrated_items` and continues; any other error re-raises, losing
the local list (`none`).  Returns the `not_migrated_items` list. -/
def migrate_batch : List (Record × CreateOutcome) → Option (List Record)
  | [] => some []
  | (r, out) :: rest =>
    match out with
    | .ok => migrate_batch rest
    | .conflict => (migrate_batch rest).map (fun nm => r :: nm)
    | .otherError => none

/-- Collects the per-batch results of `migrate_data`
(cosmos_data_migration.py lines 93-107): `future.result()` re-raises a
batch's error, aborting the run; otherwise the per-batch
`not_migrated_items` lists are concatenated.  The thread pool completes
futures in a nondeterministic order; the model fixes submission order,
which leaves the counts unchanged. -/
def collectBatches : List (List (Record × CreateOutcome)) → Option (List Record)
  | [] => some []
  | b :: rest =>
    match migrate_batch b, collectBatches rest with
    | some nm, some nms => some (nm ++ nms)
    | _, _ => none

/-- Embeds `migrate_data` (cosmos_data_migration.py lines 93-107): the
item list is sliced into `batch_size` chunks and every chunk is run
through `migrate_batch`. -/
def migrate_data (bs : Nat) (items : List (Record × CreateOutcome)) : Option (List Record) :=
  collectBatches (chunkList bs items)

/-- The tenacity `wait_exponential(multiplier=1, min=4, max=10)` wait
after the given 1-based attempt number: `2 ^ (attempt - 1)` clamped to
the interval `[4, 10]`. -/
def waitExp (attempt : Nat) : Nat := max 4 (min (2 ^ (attempt - 1)) 10)

/-- Embeds the tenacity-decorated `upsert_item_with_retry`
(cosmos_data_migration.py lines 68-77) from attempt number `attempt`:
`failures` is the number of leading calls that raise; the decorator
`stop=stop_after_attempt(3)` allows 3 attempts in total, waiting
`waitExp` between attempts, and re-raises after the third failure.
Returns whether the upsert finally succeeded and the backoff waits
performed. -/
def upsertAttempts (failures : Nat) (attempt : Nat) : Bool × List Nat :=
  if failures < attempt then (true, [])
  else if h : attempt < 3 then
    let res := upsertAttempts failures (attempt + 1)
    (res.1, waitExp attempt :: res.2)
  else (false, [])
termination_by 3 - attempt

/-- The retrying upsert starting at attempt 1. -/
def upsert_item_with_retry (failures : Nat) : Bool × List Nat :=
  upsertAttempts failures 1

/-- The success message of `verify_data`
(cosmos_data_migration.py lines 114-116). -/
def successMessage : String :=
  "Data verification successful. Source and destination containers have the same number of items."

/-- The failure message of `verify_data`
(cosmos_data_migration.py lines 118-120). -/
def failureMessage (source_count destination_count : Nat) : String :=
  "Data verification failed. Source has " ++ toString source_count ++
    " items, but destination has " ++ toString destination_count ++ " items."

/-- Embeds `verify_data` (cosmos_data_migration.py lines 109-123) on the
two `count_items` results: the containers match exactly when the counts
are equal, and the returned validation message reports accordingly. -/
def verify_data (source_count destination_count : Nat) : String :=
  if source_count = destination_count then successMessage
  else failureMessage source_count destination_count

/-- Modelled from the spec: the percentage formula the spec prescribes
for a progress emission, `(processed_count / source_count) * 100`
clamped to `[0, 100]`.  Used only to compare the code's emissions
against the specified value. -/
def specPct (processed source_count : Nat) : ℚ :=
  max 0 (min 100 (((processed : ℚ) / (source_count : ℚ)) * 100))

/-! ### Chunking lemmas -/

lemma chunkList_nil_right (bs : Nat) : chunkList bs ([] : List α) = [] := by
  rw [chunkList.eq_def]
  simp

lemma chunkList_cons_of (bs : Nat) (xs : List α) (hb : bs ≠ 0) (hx : xs ≠ []) :
    chunkList bs xs = xs.take bs :: chunkList bs (xs.drop bs) := by
  rw [chunkList.eq_def]
  rw [dif_neg]
  push_neg
  refine ⟨hb, ?_⟩
  simpa using hx

lemma chunkList_flatten (bs : Nat) (hb : 1 ≤ bs) (xs : List α) :
    (chunkList bs xs).flatten = xs := by
  have H : ∀ (n : Nat) (ys : List α), ys.length ≤ n → (chunkList bs ys).flatten = ys := by
    intro n
    induction n with
    | zero =>
      intro ys hy
      have hnil : ys = [] := List.length_eq_zero.mp (Nat.le_zero.mp hy)
      subst hnil
      simp [chunkList_nil_right]
    | succ n ih =>
      intro ys hy
      by_cases hys : ys = []
      · subst hys
        simp [chunkList_nil_right]
      · rw [chunkList_cons_of bs ys (by omega) hys]
        have hpos : 0 < ys.length := List.length_pos.mpr hys
        have hlen : (ys.drop bs).length ≤ n := by
          rw [List.length_drop]
          omega
        simp only [List.flatten_cons]
        rw [ih (ys.drop bs) hlen]
        exact List.take_append_drop bs ys
  exact H xs.length xs le_rfl

lemma chunkList_mem_length_le (bs : Nat) (xs : List α) :
    ∀ b ∈ chunkList bs xs, b.length ≤ bs := by
  have H : ∀ (n : Nat) (ys : List α), ys.length ≤ n →
      ∀ b ∈ chunkList bs ys, b.length ≤ bs := by
    intro n
    induction n with
    | zero =>
      intro ys hy b hb
      have hnil : ys = [] := List.length_eq_zero.mp (Nat.le_zero.mp hy)
      subst hnil
      simp [chunkList_nil_right] at hb
    | succ n ih =>
      intro ys hy b hbmem
      by_cases hys : ys = []
      · subst hys
        simp [chunkList_nil_right] at hbmem
      · by_cases hbz : bs = 0
        · subst hbz
          rw [chunkList.eq_def] at hbmem
          simp at hbmem
        · rw [chunkList_cons_of bs ys hbz hys] at hbmem
          rcases List.mem_cons.mp hbmem with h | h
          · subst h
            simp [List.length_take]
          · have hpos : 0 < ys.length := List.length_pos.mpr hys
            exact ih (ys.drop bs) (by rw [List.length_drop]; omega) b h
  exact H xs.length xs le_rfl

lemma chunkList_ne_nil (bs : Nat) (xs : List α) (hb : bs ≠ 0) (hx : xs ≠ []) :
    chunkList bs xs ≠ [] := by
  rw [chunkList_cons_of bs xs hb hx]
  exact List.cons_ne_nil _ _

lemma chunkList_getElem?_length (bs : Nat) (hb : 1 ≤ bs) (xs : List α) :
    ∀ i, i + 1 < (chunkList bs xs).length →
      ∃ b, (chunkList bs xs)[i]? = some b ∧ b.length = bs := by
  have H : ∀ (n : Nat) (ys : List α), ys.length ≤ n →
      ∀ i, i + 1 < (chunkList bs ys).length →
        ∃ b, (chunkList bs ys)[i]? = some b ∧ b.length = bs := by
    intro n
    induction n with
    | zero =>
      intro ys hy i h
      have hnil : ys = [] := List.length_eq_zero.mp (Nat.le_zero.mp hy)
      subst hnil
      rw [chunkList_nil_right] at h
      simp at h
    | succ n ih =>
      intro ys hy i h
      by_cases hys : ys = []
      · subst hys
        rw [chunkList_nil_right] at h
        simp at h
      · have hcons := chunkList_cons_of bs ys (by omega) hys
        have hpos : 0 < ys.length := List.length_pos.mpr hys
        cases i with
        | zero =>
          have hrest : chunkList bs (ys.drop bs) ≠ [] := by
            intro hnil
            rw [hcons, hnil] at h
            simp at h
          have hdrop : ys.drop bs ≠ [] := by
            intro hd
            apply hrest
            rw [hd]
            exact chunkList_nil_right bs
          have hlt : bs < ys.length := by
            by_contra hge
            push_neg at hge
            exact hdrop (List.drop_eq_nil_of_le hge)
          refine ⟨ys.take bs, ?_, ?_⟩
          · rw [hcons]
            simp
          · simp [List.length_take]
            omega
        | succ j =>
          have hmem : j + 1 < (chunkList bs (ys.drop bs)).length := by
            rw [hcons] at h
            simpa using h
          obtain ⟨b, hb1, hb2⟩ := ih (ys.drop bs) (by rw [List.length_drop]; omega) j hmem
          refine ⟨b, ?_, hb2⟩
          rw [hcons]
          simpa using hb1
  exact H xs.length xs le_rfl

/-! ### Batch accounting lemmas -/

lemma migrate_batch_counts (b : List (Record × CreateOutcome)) (nm : List Record)
    (h : migrate_batch b = some nm) :
    b.countP (fun p => decide (p.2 = CreateOutcome.ok)) + nm.length = b.length := by
  induction b generalizing nm with
  | nil =>
    simp [migrate_batch] at h
    subst h
    simp
  | cons p rest ih =>
    obtain ⟨r, out⟩ := p
    cases out with
    | ok =>
      simp only [migrate_batch] at h
      have := ih nm h
      simp [List.countP_cons]
      omega
    | conflict =>
      simp only [migrate_batch, Option.map_eq_some'] at h
      obtain ⟨nm', hnm', hcons⟩ := h
      have := ih nm' hnm'
      subst hcons
      simp [List.countP_cons]
      omega
    | otherError =>
      simp [migrate_batch] at h

lemma collectBatches_counts (bsl : List (List (Record × CreateOutcome))) (nm : List Record)
    (h : collectBatches bsl = some nm) :
    bsl.flatten.countP (fun p => decide (p.2 = CreateOutcome.ok)) + nm.length =
      bsl.flatten.length := by
  induction bsl generalizing nm with
  | nil =>
    simp [collectBatches] at h
    subst h
    simp
  | cons b rest ih =>
    simp only [collectBatches] at h
    cases hb : migrate_batch b with
    | none => rw [hb] at h; simp at h
    | some nmb =>
      cases hr : collectBatches rest with
      | none => rw [hb, hr] at h; simp at h
      | some nmr =>
        rw [hb, hr] at h
        simp at h
        subst h
        have h1 := migrate_batch_counts b nmb hb
        have h2 := ih nmr hr
        simp only [List.flatten_cons, List.countP_append, List.length_append]
        omega

lemma migrate_data_counts (bs : Nat) (hb : 1 ≤ bs)
    (items : List (Record × CreateOutcome)) (nm : List Record)
    (h : migrate_data bs items = some nm) :
    items.countP (fun p => decide (p.2 = CreateOutcome.ok)) + nm.length = items.length := by
  have := collectBatches_counts (chunkList bs items) nm h
  rwa [chunkList_flatten bs hb items] at this

/-! ### Loop lemmas for the app.migrate embedding -/

lemma getLast?_append_singleton (l : List β) (a : β) : (l ++ [a]).getLast? = some a :=
  List.getLast?_concat l

lemma processItem_exists_eq (sc i : Nat) (r : Record) (env : ItemEnv) (st : MigState)
    (h : item_exists_in_target env.read = true) :
    processItem sc i r env st =
      ([.readCheck r.id r.partition_key],
       some { st with
         skips := st.skips ++ [⟨r.id, .alreadyExists⟩],
         ledger := st.ledger ++ [.skippedId r.id],
         emissions := st.emissions ++ [⟨.fileExists, st.pct⟩] }) := by
  simp [processItem, h]

lemma processItem_create_ok_eq (sc i : Nat) (r : Record) (env : ItemEnv) (st : MigState)
    (hr : item_exists_in_target env.read = false) (hc : env.create = .ok) :
    processItem sc i r env st =
      ([.readCheck r.id r.partition_key, .createItem r.id],
       some { st with
         migrated := st.migrated + 1,
         pct := (((i : ℚ) + 1) / (sc : ℚ)) * 100,
         emissions := st.emissions ++ [⟨.progress, (((i : ℚ) + 1) / (sc : ℚ)) * 100⟩] }) := by
  simp [processItem, hr, hc]

lemma processItem_conflict_eq (sc i : Nat) (r : Record) (env : ItemEnv) (st : MigState)
    (hr : item_exists_in_target env.read = false) (hc : env.create = .conflict) :
    processItem sc i r env st =
      ([.readCheck r.id r.partition_key, .createItem r.id],
       some { st with
         skips := st.skips ++ [⟨r.id, .conflict⟩],
         ledger := st.ledger ++ [.skippedId r.id],
         emissions := st.emissions ++ [⟨.fileExists, st.pct⟩] }) := by
  simp [processItem, hr, hc]

lemma processItem_fatal_eq (sc i : Nat) (r : Record) (env : ItemEnv) (st : MigState)
    (hr : item_exists_in_target env.read = false) (hc : env.create = .otherError) :
    processItem sc i r env st =
      ([.readCheck r.id r.partition_key, .createItem r.id], none) := by
  simp [processItem, hr, hc]

/-- Master accounting lemma for the loop: a completed run extends the
skip list by some `ns`, keeps the ledger in lock-step with the skip
list (one id line per new skip entry, in order), produces no
permanent-failure entry, and processes every item into exactly one of
the migrated counter or a skip entry. -/
lemma migrateFrom_spec (sc : Nat) :
    ∀ (l : List (Record × ItemEnv)) (i : Nat) (st st' : MigState),
      (migrateFrom sc i st l).2 = some st' →
      ∃ ns, st'.skips = st.skips ++ ns ∧
        st'.ledger = st.ledger ++ ns.map (fun e => LedgerLine.skippedId e.record_id) ∧
        (∀ e ∈ ns, e.reason ≠ SkipReason.permanentFailure) ∧
        st'.migrated + ns.length = st.migrated + l.length := by
  intro l
  induction l with
  | nil =>
    intro i st st' h
    simp only [migrateFrom, Option.some.injEq] at h
    subst h
    exact ⟨[], by simp, by simp, by simp, by simp⟩
  | cons p rest ih =>
    intro i st st' h
    obtain ⟨r, env⟩ := p
    by_cases hex : item_exists_in_target env.read = true
    · rw [migrateFrom, processItem_exists_eq sc i r env st hex] at h
      dsimp only at h
      obtain ⟨ns, h1, h2, h3, h4⟩ := ih (i + 1) _ st' h
      refine ⟨⟨r.id, .alreadyExists⟩ :: ns, ?_, ?_, ?_, ?_⟩
      · simp only [h1]
        simp
      · simp only [h2]
        simp
      · intro e he
        rcases List.mem_cons.mp he with he | he
        · subst he
          simp
        · exact h3 e he
      · simp at h4 ⊢
        omega
    · rw [Bool.not_eq_true] at hex
      cases hc : env.create with
      | ok =>
        rw [migrateFrom, processItem_create_ok_eq sc i r env st hex hc] at h
        dsimp only at h
        obtain ⟨ns, h1, h2, h3, h4⟩ := ih (i + 1) _ st' h
        refine ⟨ns, ?_, ?_, h3, ?_⟩
        · simpa using h1
        · simpa using h2
        · simp at h4 ⊢
          omega
      | conflict =>
        rw [migrateFrom, processItem_conflict_eq sc i r env st hex hc] at h
        dsimp only at h
        obtain ⟨ns, h1, h2, h3, h4⟩ := ih (i + 1) _ st' h
        refine ⟨⟨r.id, .conflict⟩ :: ns, ?_, ?_, ?_, ?_⟩
        · simp only [h1]
          simp
        · simp only [h2]
          simp
        · intro e he
          rcases List.mem_cons.mp he with he | he
          · subst he
            simp
          · exact h3 e he
        · simp at h4 ⊢
          omega
      | otherError =>
        rw [migrateFrom, processItem_fatal_eq sc i r env st hex hc] at h
        simp at h

/-- A run in which no item both misses the existence check and draws a
non-conflict create error completes normally. -/
lemma migrateFrom_completes (sc : Nat) :
    ∀ (l : List (Record × ItemEnv)) (i : Nat) (st : MigState),
      (∀ p ∈ l, p.2.create = CreateOutcome.otherError →
        item_exists_in_target p.2.read = true) →
      ∃ st', (migrateFrom sc i st l).2 = some st' := by
  intro l
  induction l with
  | nil =>
    intro i st _
    exact ⟨_, rfl⟩
  | cons p rest ih =>
    intro i st hsafe
    obtain ⟨r, env⟩ := p
    have hrest : ∀ p ∈ rest, p.2.create = CreateOutcome.otherError →
        item_exists_in_target p.2.read = true := by
      intro p hp
      exact hsafe p (List.mem_cons_of_mem _ hp)
    by_cases hex : item_exists_in_target env.read = true
    · rw [migrateFrom, processItem_exists_eq sc i r env st hex]
      dsimp only
      exact ih (i + 1) _ hrest
    · rw [Bool.not_eq_true] at hex
      cases hc : env.create with
      | ok =>
        rw [migrateFrom, processItem_create_ok_eq sc i r env st hex hc]
        dsimp only
        exact ih (i + 1) _ hrest
      | conflict =>
        rw [migrateFrom, processItem_conflict_eq sc i r env st hex hc]
        dsimp only
        exact ih (i + 1) _ hrest
      | otherError =>
        have := hsafe (r, env) (List.mem_cons_self _ _) hc
        rw [hex] at this
        simp at this

/-- Each conflict-skipped item of a completed run has its conflict skip
entry in the final state. -/
lemma migrateFrom_conflict_mem (sc : Nat) :
    ∀ (l : List (Record × ItemEnv)) (i : Nat) (st st' : MigState),
      (migrateFrom sc i st l).2 = some st' →
      ∀ (r : Record) (env : ItemEnv), (r, env) ∈ l →
        item_exists_in_target env.read = false →
        env.create = CreateOutcome.conflict →
        SkipEntry.mk r.id SkipReason.conflict ∈ st'.skips := by
  intro l
  induction l with
  | nil =>
    intro i st st' _ r env hmem
    simp at hmem
  | cons p rest ih =>
    intro i st st' h r env hmem hex hc
    rcases List.mem_cons.mp hmem with heq | hmem'
    · have hp : p = (r, env) := heq.symm
      subst hp
      rw [migrateFrom, processItem_conflict_eq sc i r env st hex hc] at h
      dsimp only at h
      obtain ⟨ns, h1, _, _, _⟩ := migrateFrom_spec sc rest (i + 1) _ st' h
      rw [h1]
      simp
    · obtain ⟨r0, env0⟩ := p
      by_cases hex0 : item_exists_in_target env0.read = true
      · rw [migrateFrom, processItem_exists_eq sc i r0 env0 st hex0] at h
        dsimp only at h
        exact ih (i + 1) _ st' h r env hmem' hex hc
      · rw [Bool.not_eq_true] at hex0
        cases hc0 : env0.create with
        | ok =>
          rw [migrateFrom, processItem_create_ok_eq sc i r0 env0 st hex0 hc0] at h
          dsimp only at h
          exact ih (i + 1) _ st' h r env hmem' hex hc
        | conflict =>
          rw [migrateFrom, processItem_conflict_eq sc i r0 env0 st hex0 hc0] at h
          dsimp only at h
          exact ih (i + 1) _ st' h r env hmem' hex hc
        | otherError =>
          rw [migrateFrom, processItem_fatal_eq sc i r0 env0 st hex0 hc0] at h
          simp at h

lemma skipped_failed_total (st : MigState) :
    skipped_count st + failed_count st = st.skips.length := by
  unfold skipped_count failed_count
  generalize st.skips = l
  induction l with
  | nil => rfl
  | cons e t ih =>
    rcases Bool.eq_false_or_eq_true (e.reason == SkipReason.permanentFailure) with he | he <;>
      simp [List.countP_cons, he] <;> omega

lemma failed_count_eq_zero (st : MigState)
    (h : ∀ e ∈ st.skips, e.reason ≠ SkipReason.permanentFailure) :
    failed_count st = 0 := by
  unfold failed_count
  rw [List.countP_eq_zero]
  intro e he
  simpa using h e he

/-! ### Percentage lemmas -/

lemma pct_formula_bounds (i sc : Nat) (h : i + 1 ≤ sc) :
    0 ≤ (((i : ℚ) + 1) / (sc : ℚ)) * 100 ∧ (((i : ℚ) + 1) / (sc : ℚ)) * 100 ≤ 100 := by
  have hsc : (0 : ℚ) < sc := by
    have hs : 0 < sc := by omega
    exact_mod_cast hs
  have hle : ((i : ℚ) + 1) ≤ (sc : ℚ) := by exact_mod_cast h
  constructor
  · positivity
  · have hdiv : ((i : ℚ) + 1) / (sc : ℚ) ≤ 1 := (div_le_one hsc).mpr hle
    have := mul_le_mul_of_nonneg_right hdiv (by norm_num : (0 : ℚ) ≤ 100)
    simpa using this

/-- Every percentage a completed run emits lies in `[0, 100]`, provided
the loop enters with consistent index bookkeeping and in-range state. -/
lemma migrateFrom_pct_bounds (sc : Nat) :
    ∀ (l : List (Record × ItemEnv)) (i : Nat) (st st' : MigState),
      i + l.length = sc →
      0 ≤ st.pct → st.pct ≤ 100 →
      (∀ e ∈ st.emissions, 0 ≤ e.pct ∧ e.pct ≤ 100) →
      (migrateFrom sc i st l).2 = some st' →
      ∀ e ∈ st'.emissions, 0 ≤ e.pct ∧ e.pct ≤ 100 := by
  intro l
  induction l with
  | nil =>
    intro i st st' _ _ _ hall h
    simp only [migrateFrom, Option.some.injEq] at h
    subst h
    intro e he
    simp at he
    rcases he with he | he
    · exact hall e he
    · rw [he]
      norm_num
  | cons p rest ih =>
    intro i st st' hlen h0 h100 hall h
    obtain ⟨r, env⟩ := p
    by_cases hex : item_exists_in_target env.read = true
    · rw [migrateFrom, processItem_exists_eq sc i r env st hex] at h
      dsimp only at h
      refine ih (i + 1) _ st' (by simp at hlen ⊢; omega) (by simp [h0]) (by simp [h100]) ?_ h
      intro e he
      simp at he
      rcases he with he | he
      · exact hall e he
      · rw [he]
        exact ⟨h0, h100⟩
    · rw [Bool.not_eq_true] at hex
      cases hc : env.create with
      | ok =>
        rw [migrateFrom, processItem_create_ok_eq sc i r env st hex hc] at h
        dsimp only at h
        have hbounds := pct_formula_bounds i sc (by simp at hlen; omega)
        refine ih (i + 1) _ st' (by simp at hlen ⊢; omega)
          (by simp [hbounds.1]) (by simp [hbounds.2]) ?_ h
        intro e he
        simp at he
        rcases he with he | he
        · exact hall e he
        · rw [he]
          exact hbounds
      | conflict =>
        rw [migrateFrom, processItem_conflict_eq sc i r env st hex hc] at h
        dsimp only at h
        refine ih (i + 1) _ st' (by simp at hlen ⊢; omega) (by simp [h0]) (by simp [h100]) ?_ h
        intro e he
        simp at he
        rcases he with he | he
        · exact hall e he
        · rw [he]
          exact ⟨h0, h100⟩
      | otherError =>
        rw [migrateFrom, processItem_fatal_eq sc i r env st hex hc] at h
        simp at h

/-- The final emission of a completed run is the completion event with
the literal percentage 100. -/
lemma migrateFrom_last_emission (sc : Nat) :
    ∀ (l : List (Record × ItemEnv)) (i : Nat) (st st' : MigState),
      (migrateFrom sc i st l).2 = some st' →
      st'.emissions.getLast? = some ⟨.final, 100⟩ := by
  intro l
  induction l with
  | nil =>
    intro i st st' h
    simp only [migrateFrom, Option.some.injEq] at h
    subst h
    exact getLast?_append_singleton _ _
  | cons p rest ih =>
    intro i st st' h
    obtain ⟨r, env⟩ := p
    by_cases hex : item_exists_in_target env.read = true
    · rw [migrateFrom, processItem_exists_eq sc i r env st hex] at h
      dsimp only at h
      exact ih (i + 1) _ st' h
    · rw [Bool.not_eq_true] at hex
      cases hc : env.create with
      | ok =>
        rw [migrateFrom, processItem_create_ok_eq sc i r env st hex hc] at h
        dsimp only at h
        exact ih (i + 1) _ st' h
      | conflict =>
        rw [migrateFrom, processItem_conflict_eq sc i r env st hex hc] at h
        dsimp only at h
        exact ih (i + 1) _ st' h
      | otherError =>
        rw [migrateFrom, processItem_fatal_eq sc i r env st hex hc] at h
        simp at h

/-! ### Store-model lemmas (idempotence) -/

lemma migrateStoreFrom_dest_mono (sc : Nat) :
    ∀ (items : List Record) (i : Nat) (st : MigState) (dest : List Nat) (x : Nat),
      x ∈ dest → x ∈ (migrateStoreFrom sc i st dest items).2 := by
  intro items
  induction items with
  | nil =>
    intro i st dest x hx
    simpa [migrateStoreFrom] using hx
  | cons r rest ih =>
    intro i st dest x hx
    by_cases hmem : r.id ∈ dest
    · rw [migrateStoreFrom,
        processItem_exists_eq sc i r (storeEnv dest r) st (by simp [storeEnv, hmem, item_exists_in_target])]
      dsimp only
      rw [if_pos hmem]
      exact ih (i + 1) _ dest x hx
    · rw [migrateStoreFrom,
        processItem_create_ok_eq sc i r (storeEnv dest r) st
          (by simp [storeEnv, hmem, item_exists_in_target]) (by simp [storeEnv])]
      dsimp only
      rw [if_neg hmem]
      exact ih (i + 1) _ (r.id :: dest) x (List.mem_cons_of_mem _ hx)

lemma migrateStoreFrom_ids_mem (sc : Nat) :
    ∀ (items : List Record) (i : Nat) (st : MigState) (dest : List Nat),
      ∀ r ∈ items, r.id ∈ (migrateStoreFrom sc i st dest items).2 := by
  intro items
  induction items with
  | nil =>
    intro i st dest r hr
    simp at hr
  | cons r0 rest ih =>
    intro i st dest r hr
    by_cases hmem : r0.id ∈ dest
    · rw [migrateStoreFrom,
        processItem_exists_eq sc i r0 (storeEnv dest r0) st (by simp [storeEnv, hmem, item_exists_in_target])]
      dsimp only
      rw [if_pos hmem]
      rcases List.mem_cons.mp hr with heq | hr'
      · subst heq
        exact migrateStoreFrom_dest_mono sc rest (i + 1) _ dest r.id hmem
      · exact ih (i + 1) _ dest r hr'
    · rw [migrateStoreFrom,
        processItem_create_ok_eq sc i r0 (storeEnv dest r0) st
          (by simp [storeEnv, hmem, item_exists_in_target]) (by simp [storeEnv])]
      dsimp only
      rw [if_neg hmem]
      rcases List.mem_cons.mp hr with heq | hr'
      · subst heq
        exact migrateStoreFrom_dest_mono sc rest (i + 1) _ (r.id :: dest) r.id (List.mem_cons_self _ _)
      · exact ih (i + 1) _ (r0.id :: dest) r hr'

/-- A run over a destination that already holds every source id only
skips: the migrated counter is untouched, each item contributes one
`AlreadyExists` skip entry in order, and the destination is unchanged. -/
lemma migrateStoreFrom_all_present (sc : Nat) :
    ∀ (items : List Record) (i : Nat) (st : MigState) (dest : List Nat),
      (∀ r ∈ items, r.id ∈ dest) →
      (migrateStoreFrom sc i st dest items).1.migrated = st.migrated ∧
      (migrateStoreFrom sc i st dest items).1.skips =
        st.skips ++ items.map (fun r => ⟨r.id, SkipReason.alreadyExists⟩) ∧
      (migrateStoreFrom sc i st dest items).2 = dest := by
  intro items
  induction items with
  | nil =>
    intro i st dest _
    refine ⟨?_, ?_, ?_⟩ <;> simp [migrateStoreFrom]
  | cons r rest ih =>
    intro i st dest hall
    have hmem : r.id ∈ dest := hall r (List.mem_cons_self _ _)
    rw [migrateStoreFrom,
      processItem_exists_eq sc i r (storeEnv dest r) st (by simp [storeEnv, hmem, item_exists_in_target])]
    dsimp only
    rw [if_pos hmem]
    have hrest : ∀ r' ∈ rest, r'.id ∈ dest := by
      intro r' hr'
      exact hall r' (List.mem_cons_of_mem _ hr')
    obtain ⟨ih1, ih2, ih3⟩ := ih (i + 1) _ dest hrest
    refine ⟨?_, ?_, ih3⟩
    · rw [ih1]
    · rw [ih2]
      simp

/-! ### Retry helper lemmas -/

lemma upsertAttempts_ge (f : Nat) (hf : 3 ≤ f) : upsertAttempts f 1 = (false, [4, 4]) := by
  rw [upsertAttempts]
  rw [if_neg (by omega), dif_pos (by norm_num)]
  rw [upsertAttempts]
  rw [if_neg (by omega), dif_pos (by norm_num)]
  rw [upsertAttempts]
  rw [if_neg (by omega), dif_neg (by norm_num)]
  simp [waitExp]

lemma upsert_retry_success (f : Nat) (hf : f < 3) :
    (upsert_item_with_retry f).1 = true := by
  unfold upsert_item_with_retry
  interval_cases f <;> simp [upsertAttempts]

lemma upsert_retry_failure (f : Nat) (hf : 3 ≤ f) :
    (upsert_item_with_retry f).1 = false := by
  unfold upsert_item_with_retry
  rw [upsertAttempts_ge f hf]

lemma upsert_retry_waits (f : Nat) : ∀ w ∈ (upsert_item_with_retry f).2, w = 4 := by
  by_cases hf : f < 3
  · unfold upsert_item_with_retry
    interval_cases f <;> simp [upsertAttempts, waitExp]
  · push_neg at hf
    unfold upsert_item_with_retry
    rw [upsertAttempts_ge f hf]
    intro w hw
    simp at hw
    rcases hw with h | h <;> omega

/-! ### Validator helper lemmas -/

lemma failureMessage_ne_success (a b : Nat) : failureMessage a b ≠ successMessage := by
  intro h
  unfold failureMessage successMessage at h
  rw [String.append_assoc, String.append_assoc, String.append_assoc] at h
  have hd := congrArg String.data h
  rw [String.data_append] at hd
  have ht := congrArg (List.take 21) hd
  rw [List.take_append_of_le_length (by decide)] at ht
  revert ht
  decide

/-! ### Claim theorems -/

/-- Claim C1: for every batch_size at least 1 and every source record
set of size N, upon normal (non-aborted) completion the sum of the
migrated, skipped and failed counts equals N, and at every intermediate
point of the run (after any prefix of the items) the sum is at most the
source count.  The first two conjuncts state this for the `app.migrate`
loop (whose counters are the spec's counters; the loop itself ignores
`batch_size`); the third states the accounting for the batched
`migrate_data` pipeline, where the migrated are the successful creates,
the skipped are the conflict items returned in `not_migrated_items`,
and no record fails non-fatally. -/
theorem C1_counts_conservation :
    (∀ (ts : Nat) (items : List (Record × ItemEnv)) (st : MigState),
      (migrate ts items).2 = some st →
      st.migrated + skipped_count st + failed_count st = items.length) ∧
    (∀ (ts : Nat) (l1 l2 : List (Record × ItemEnv)) (st : MigState),
      (migrateFrom (l1 ++ l2).length 0 (initState ts) l1).2 = some st →
      st.migrated + skipped_count st + failed_count st ≤ (l1 ++ l2).length) ∧
    (∀ (bs : Nat), 1 ≤ bs →
      ∀ (items : List (Record × CreateOutcome)) (nm : List Record),
        migrate_data bs items = some nm →
        items.countP (fun p => decide (p.2 = CreateOutcome.ok)) + nm.length =
          items.length) := by
  refine ⟨?_, ?_, ?_⟩
  · intro ts items st h
    unfold migrate at h
    obtain ⟨ns, h1, _, _, h4⟩ := migrateFrom_spec items.length items 0 (initState ts) st h
    have hsf := skipped_failed_total st
    have hlen : st.skips.length = ns.length := by
      rw [h1]
      simp [initState]
    simp [initState] at h4
    omega
  · intro ts l1 l2 st h
    obtain ⟨ns, h1, _, _, h4⟩ := migrateFrom_spec (l1 ++ l2).length l1 0 (initState ts) st h
    have hsf := skipped_failed_total st
    have hlen : st.skips.length = ns.length := by
      rw [h1]
      simp [initState]
    simp [initState] at h4
    rw [List.length_append]
    omega
  · intro bs hbs items nm h
    exact migrate_data_counts bs hbs items nm h

/-- Concrete final state of the run backing the C1 witness: two source
records, one already present in the destination and one drawing a
conflict, so both are skipped and none is migrated. -/
def C1WitnessState : MigState :=
  { migrated := 0,
    skips := [⟨1, .alreadyExists⟩, ⟨2, .conflict⟩],
    ledger := [.header 0, .skippedId 1, .skippedId 2],
    emissions := [⟨.fileExists, 0⟩, ⟨.fileExists, 0⟩, ⟨.final, 100⟩],
    pct := 0 }

/-- Witness for C1: the accounting theorem evaluated on a concrete
two-record run. -/
theorem C1_counts_conservation_witness :
    C1WitnessState.migrated + skipped_count C1WitnessState + failed_count C1WitnessState = 2 :=
  C1_counts_conservation.1 0
    [(⟨1, 0⟩, ⟨.ok, .ok⟩), (⟨2, 0⟩, ⟨.notFound, .conflict⟩)] C1WitnessState (by decide)

/-- Claim C2 counterexample: a single record whose create fails with a
transient (non-conflict, non-409) error.  The `app.migrate` run aborts
through its outer exception handler and `migrate_batch` re-raises — the
write is not retried, the record is not migrated, no PermanentFailure
skip entry exists, contradicting the claim that a record failing fewer
than the attempt cap is eventually migrated and that the run continues
when the cap is exhausted. -/
theorem C2_retry_claim_cex :
    (migrate 0 [(⟨1, 0⟩, ⟨ReadOutcome.notFound, CreateOutcome.otherError⟩)]).2 = none ∧
    migrate_batch [(⟨1, 0⟩, CreateOutcome.otherError)] = none := by
  exact ⟨rfl, rfl⟩

/-- Claim C2 amended: the standalone helper `upsert_item_with_retry`
retries up to a cap of 3 attempts with backoff waits
`max 4 (min (2 ^ n) 10) = 4` time-units (hence within the `[4, 10]`
cap), succeeding exactly when fewer than 3 calls fail; however the
migration paths never invoke it: a transient (non-conflict) create
failure immediately aborts the batch and the run without any retry, and
no completed run ever records a PermanentFailure skip entry. -/
theorem C2_retry_amended :
    (∀ f, f < 3 → (upsert_item_with_retry f).1 = true) ∧
    (∀ f, 3 ≤ f → (upsert_item_with_retry f).1 = false) ∧
    (∀ f, ∀ w ∈ (upsert_item_with_retry f).2, w = 4 ∧ 4 ≤ w ∧ w ≤ 10) ∧
    (∀ (r : Record) (rest : List (Record × CreateOutcome)),
      migrate_batch ((r, CreateOutcome.otherError) :: rest) = none) ∧
    (∀ (ts : Nat) (items : List (Record × ItemEnv)) (st : MigState),
      (migrate ts items).2 = some st → failed_count st = 0) := by
  refine ⟨upsert_retry_success, upsert_retry_failure, ?_, ?_, ?_⟩
  · intro f w hw
    have h4 := upsert_retry_waits f w hw
    refine ⟨h4, ?_, ?_⟩ <;> omega
  · intro r rest
    rfl
  · intro ts items st h
    unfold migrate at h
    obtain ⟨ns, h1, _, h3, _⟩ := migrateFrom_spec items.length items 0 (initState ts) st h
    apply failed_count_eq_zero
    intro e he
    rw [h1] at he
    simp [initState] at he
    exact h3 e he

/-- Concrete final state of the empty run backing the C2 witness. -/
def C2WitnessState : MigState :=
  { migrated := 0, skips := [], ledger := [.header 0],
    emissions := [⟨.final, 100⟩], pct := 0 }

/-- Witness for C2 amended: the retry helper evaluated below and at the
cap, and the no-permanent-failure fact on a concrete completed run. -/
theorem C2_retry_amended_witness :
    (upsert_item_with_retry 2).1 = true ∧
    (upsert_item_with_retry 3).1 = false ∧
    failed_count C2WitnessState = 0 :=
  ⟨C2_retry_amended.1 2 (by norm_num),
   C2_retry_amended.2.1 3 le_rfl,
   C2_retry_amended.2.2.2.2 0 [] C2WitnessState (by decide)⟩

/-- Claim C3: for every record processed by the migration loop, the
destination existence check is consulted first; if the record is
present, an AlreadyExists skip entry is recorded and no write is
attempted for that record (its destination-call trace is the point read
alone); otherwise a create is attempted (the trace is the point read
followed by the create). -/
theorem C3_exists_check_first (sc i : Nat) (r : Record) (env : ItemEnv) (st : MigState) :
    (item_exists_in_target env.read = true →
      (processItem sc i r env st).1 = [DestCall.readCheck r.id r.partition_key] ∧
      ∃ st', (processItem sc i r env st).2 = some st' ∧
        st'.skips = st.skips ++ [⟨r.id, SkipReason.alreadyExists⟩] ∧
        st'.migrated = st.migrated) ∧
    (item_exists_in_target env.read = false →
      (processItem sc i r env st).1 =
        [DestCall.readCheck r.id r.partition_key, DestCall.createItem r.id]) := by
  constructor
  · intro hex
    rw [processItem_exists_eq sc i r env st hex]
    exact ⟨rfl, _, rfl, rfl, rfl⟩
  · intro hex
    cases hc : env.create with
    | ok => rw [processItem_create_ok_eq sc i r env st hex hc]
    | conflict => rw [processItem_conflict_eq sc i r env st hex hc]
    | otherError => rw [processItem_fatal_eq sc i r env st hex hc]

/-- Witness for C3: the trace of an already-present record is the
existence check alone. -/
theorem C3_exists_check_first_witness :
    (processItem 1 0 ⟨5, 0⟩ ⟨ReadOutcome.ok, CreateOutcome.ok⟩ (initState 0)).1 =
      [DestCall.readCheck 5 0] :=
  ((C3_exists_check_first 1 0 ⟨5, 0⟩ ⟨ReadOutcome.ok, CreateOutcome.ok⟩ (initState 0)).1 rfl).1

/-- Claim C4: running the migration twice against the same source and
destination, with no destination change in between, migrates zero
records on the second run — every record of the second run is skipped
as already existing (and the destination is unchanged). -/
theorem C4_second_run_idempotent (ts1 ts2 : Nat) (dest : List Nat) (items : List Record) :
    (migrateStore ts2 (migrateStore ts1 dest items).2 items).1.migrated = 0 ∧
    (migrateStore ts2 (migrateStore ts1 dest items).2 items).1.skips =
      items.map (fun r => ⟨r.id, SkipReason.alreadyExists⟩) ∧
    (migrateStore ts2 (migrateStore ts1 dest items).2 items).2 =
      (migrateStore ts1 dest items).2 := by
  unfold migrateStore
  have hall : ∀ r ∈ items,
      r.id ∈ (migrateStoreFrom items.length 0 (initState ts1) dest items).2 :=
    fun r hr => migrateStoreFrom_ids_mem items.length items 0 (initState ts1) dest r hr
  obtain ⟨h1, h2, h3⟩ :=
    migrateStoreFrom_all_present items.length items 0 (initState ts2) _ hall
  refine ⟨?_, ?_, h3⟩
  · rw [h1]
    rfl
  · rw [h2]
    simp [initState]

/-- Items for the C5 counterexample: two records, both already present
in the destination. -/
def C5CexItems : List (Record × ItemEnv) :=
  [(⟨1, 0⟩, ⟨.ok, .ok⟩), (⟨2, 0⟩, ⟨.ok, .ok⟩)]

/-- Claim C5 counterexample: on a two-record source where both records
are skipped, the code emits the percentages [0, 0, 100]; the spec
formula `(processed / source) * 100` clamped to `[0, 100]` gives 50
after one processed record and 100 after two, so the second emission
(value 0) equals neither — an emission does not carry the claimed
value.  (The skip path never updates `progress_percentage`.) -/
theorem C5_progress_pct_cex :
    ((migrate 0 C5CexItems).2.map (fun st => st.emissions.map Emission.pct)) =
      some [0, 0, 100] ∧
    specPct 1 2 = 50 ∧ specPct 2 2 = 100 ∧ (0 : ℚ) ≠ 50 ∧ (0 : ℚ) ≠ 100 := by
  refine ⟨by decide, ?_, ?_, by norm_num, by norm_num⟩
  · unfold specPct
    norm_num [min_def, max_def]
  · unfold specPct
    norm_num [min_def, max_def]

/-- Claim C5 amended: the percentage is updated only when a record is
successfully created, to `((i + 1) / source_count) * 100` for item
index `i`; emissions on the skip paths repeat the previous percentage
unchanged; the final emission carries the literal 100; every emitted
percentage lies in `[0, 100]` without explicit clamping; and when the
source is empty the run emits only the final 100 and the loop never
executes, so no quotient by `source_count` is formed. -/
theorem C5_progress_pct_amended :
    (∀ (ts : Nat) (items : List (Record × ItemEnv)) (st : MigState),
      (migrate ts items).2 = some st →
      (∀ e ∈ st.emissions, 0 ≤ e.pct ∧ e.pct ≤ 100) ∧
      st.emissions.getLast? = some ⟨EmissionKind.final, 100⟩) ∧
    (∀ ts : Nat, (migrate ts []).2 =
      some { initState ts with emissions := [⟨EmissionKind.final, 100⟩] }) ∧
    (∀ (sc i : Nat) (r : Record) (env : ItemEnv) (st : MigState),
      item_exists_in_target env.read = true →
      (processItem sc i r env st).2 =
        some { st with
          skips := st.skips ++ [⟨r.id, SkipReason.alreadyExists⟩],
          ledger := st.ledger ++ [LedgerLine.skippedId r.id],
          emissions := st.emissions ++ [⟨EmissionKind.fileExists, st.pct⟩] }) ∧
    (∀ (sc i : Nat) (r : Record) (env : ItemEnv) (st : MigState),
      item_exists_in_target env.read = false → env.create = CreateOutcome.ok →
      (processItem sc i r env st).2 =
        some { st with
          migrated := st.migrated + 1,
          pct := (((i : ℚ) + 1) / (sc : ℚ)) * 100,
          emissions := st.emissions ++
            [⟨EmissionKind.progress, (((i : ℚ) + 1) / (sc : ℚ)) * 100⟩] }) := by
  refine ⟨?_, ?_, ?_, ?_⟩
  · intro ts items st h
    unfold migrate at h
    constructor
    · exact migrateFrom_pct_bounds items.length items 0 (initState ts) st (by simp)
        (by norm_num [initState]) (by norm_num [initState]) (by simp [initState]) h
    · exact migrateFrom_last_emission items.length items 0 (initState ts) st h
  · intro ts
    rfl
  · intro sc i r env st hex
    rw [processItem_exists_eq sc i r env st hex]
  · intro sc i r env st hex hc
    rw [processItem_create_ok_eq sc i r env st hex hc]

/-- Concrete final state of the empty run backing the C5 witness. -/
def C5WitnessState : MigState :=
  { migrated := 0, skips := [], ledger := [.header 0],
    emissions := [⟨.final, 100⟩], pct := 0 }

/-- Witness for C5 amended: the bounds theorem evaluated on a concrete
run and its final emission. -/
theorem C5_progress_pct_amended_witness :
    0 ≤ (Emission.mk EmissionKind.final 100).pct ∧
      (Emission.mk EmissionKind.final 100).pct ≤ 100 :=
  (C5_progress_pct_amended.1 0 [] C5WitnessState (by decide)).1
    ⟨EmissionKind.final, 100⟩ (by decide)

/-- Claim C6: the post-migration validator `verify_data` reports the
successful-match message exactly when the source count equals the
destination count at validation time. -/
theorem C6_validator_match_iff (source_count destination_count : Nat) :
    verify_data source_count destination_count = successMessage ↔
      source_count = destination_count := by
  constructor
  · intro h
    by_contra hne
    rw [verify_data, if_neg hne] at h
    exact failureMessage_ne_success _ _ h
  · intro h
    rw [verify_data, if_pos h]

/-- Claim C7: every record whose create draws a Conflict gets a
Conflict skip entry recorded, and the failure is not fatal: a run in
which no record draws a non-conflict create error (every create outcome
is success or Conflict) completes normally, processing all remaining
records. -/
theorem C7_conflict_skip_nonfatal :
    (∀ (ts : Nat) (items : List (Record × ItemEnv)) (st : MigState),
      (migrate ts items).2 = some st →
      ∀ (r : Record) (env : ItemEnv), (r, env) ∈ items →
        item_exists_in_target env.read = false →
        env.create = CreateOutcome.conflict →
        SkipEntry.mk r.id SkipReason.conflict ∈ st.skips) ∧
    (∀ (ts : Nat) (items : List (Record × ItemEnv)),
      (∀ p ∈ items, p.2.create = CreateOutcome.otherError →
        item_exists_in_target p.2.read = true) →
      ∃ st, (migrate ts items).2 = some st) := by
  constructor
  · intro ts items st h
    unfold migrate at h
    exact migrateFrom_conflict_mem items.length items 0 (initState ts) st h
  · intro ts items hsafe
    unfold migrate
    exact migrateFrom_completes items.length items 0 (initState ts) hsafe

/-- Concrete final state of the run backing the C7 witness: one record
drawing a Conflict on create. -/
def C7WitnessState : MigState :=
  { migrated := 0, skips := [⟨3, .conflict⟩],
    ledger := [.header 0, .skippedId 3],
    emissions := [⟨.fileExists, 0⟩, ⟨.final, 100⟩], pct := 0 }

/-- Witness for C7: the conflict-skip theorem evaluated on a concrete
one-record run. -/
theorem C7_conflict_skip_nonfatal_witness :
    SkipEntry.mk 3 SkipReason.conflict ∈ C7WitnessState.skips :=
  C7_conflict_skip_nonfatal.1 0
    [(⟨3, 0⟩, ⟨ReadOutcome.notFound, CreateOutcome.conflict⟩)] C7WitnessState (by decide)
    ⟨3, 0⟩ ⟨ReadOutcome.notFound, CreateOutcome.conflict⟩ (by decide) rfl rfl

/-- Claim C8: for every batch size at least 1 and every source
sequence, the batcher partitions the sequence into batches whose
concatenation in order is the original sequence, every batch other than
possibly the last has exactly `batch_size` records, and every batch
(including the last) has at most `batch_size` records. -/
theorem C8_batching_partition {α : Type} (bs : Nat) (hbs : 1 ≤ bs) (xs : List α) :
    (chunkList bs xs).flatten = xs ∧
    (∀ i, i + 1 < (chunkList bs xs).length →
      ∃ b, (chunkList bs xs)[i]? = some b ∧ b.length = bs) ∧
    (∀ b ∈ chunkList bs xs, b.length ≤ bs) :=
  ⟨chunkList_flatten bs hbs xs, chunkList_getElem?_length bs hbs xs,
   chunkList_mem_length_le bs xs⟩

/-- Witness for C8: the partition theorem evaluated at batch size 2 on
a three-element list. -/
theorem C8_batching_partition_witness :
    (chunkList 2 [1, 2, 3]).flatten = [1, 2, 3] :=
  (C8_batching_partition 2 (by norm_num) [1, 2, 3]).1

/-- Items for the C9 counterexample: the same id skipped once because
it already exists and once because its create draws a Conflict. -/
def C9CexItems : List (Record × ItemEnv) :=
  [(⟨7, 0⟩, ⟨.ok, .ok⟩), (⟨7, 1⟩, ⟨.notFound, .conflict⟩)]

/-- Claim C9 counterexample: two skips with different reasons
(AlreadyExists and Conflict) produce identical ledger lines
`Skipped File ID: 7`, and no per-entry timestamp is written (the only
timestamp in the file is the run header line) — so a ledger line does
not contain the skip reason or a timestamp, contrary to the claim. -/
theorem C9_ledger_line_cex :
    ((migrate 5 C9CexItems).2.map MigState.ledger) =
      some [LedgerLine.header 5, LedgerLine.skippedId 7, LedgerLine.skippedId 7] ∧
    ((migrate 5 C9CexItems).2.map (fun st => st.skips.map SkipEntry.reason)) =
      some [SkipReason.alreadyExists, SkipReason.conflict] ∧
    SkipReason.alreadyExists ≠ SkipReason.conflict := by
  exact ⟨by decide, by decide, by decide⟩

/-- Claim C9 amended: every skipped record produces exactly one
appended ledger line, which contains the record id only (no reason and
no per-entry timestamp); the date-time appears once, in the run header
line; the ledger of a completed run is exactly the header followed by
one id line per skip entry in skip order; and each loop step only
appends to the ledger, never modifying or removing existing lines. -/
theorem C9_ledger_amended :
    (∀ (ts : Nat) (items : List (Record × ItemEnv)) (st : MigState),
      (migrate ts items).2 = some st →
      st.ledger = LedgerLine.header ts ::
        st.skips.map (fun e => LedgerLine.skippedId e.record_id)) ∧
    (∀ (sc i : Nat) (r : Record) (env : ItemEnv) (st st' : MigState),
      (processItem sc i r env st).2 = some st' →
      ∃ suffix, st'.ledger = st.ledger ++ suffix) := by
  constructor
  · intro ts items st h
    unfold migrate at h
    obtain ⟨ns, h1, h2, _, _⟩ := migrateFrom_spec items.length items 0 (initState ts) st h
    rw [h2, h1]
    simp [initState]
  · intro sc i r env st st' h
    by_cases hex : item_exists_in_target env.read = true
    · rw [processItem_exists_eq sc i r env st hex] at h
      simp at h
      subst h
      exact ⟨[.skippedId r.id], rfl⟩
    · rw [Bool.not_eq_true] at hex
      cases hc : env.create with
      | ok =>
        rw [processItem_create_ok_eq sc i r env st hex hc] at h
        simp at h
        subst h
        exact ⟨[], by simp⟩
      | conflict =>
        rw [processItem_conflict_eq sc i r env st hex hc] at h
        simp at h
        subst h
        exact ⟨[.skippedId r.id], rfl⟩
      | otherError =>
        rw [processItem_fatal_eq sc i r env st hex hc] at h
        simp at h

/-- Concrete final state of the run backing the C9 witness: one
already-present record. -/
def C9WitnessState : MigState :=
  { migrated := 0, skips := [⟨9, .alreadyExists⟩],
    ledger := [.header 4, .skippedId 9],
    emissions := [⟨.fileExists, 0⟩, ⟨.final, 100⟩], pct := 0 }

/-- Witness for C9 amended: the ledger-shape theorem evaluated on a
concrete one-record run. -/
theorem C9_ledger_amended_witness :
    C9WitnessState.ledger =
      LedgerLine.header 4 ::
        C9WitnessState.skips.map (fun e => LedgerLine.skippedId e.record_id) :=
  C9_ledger_amended.1 4 [(⟨9, 0⟩, ⟨ReadOutcome.ok, CreateOutcome.ok⟩)] C9WitnessState
    (by decide)

/-- Claim C10: `item_exists_in_target` is total and never propagates an
exception; it returns true exactly when the destination point read
succeeds and false for every raised exception (not-found and network
errors alike), and a record whose read fails with a network error is
treated as absent — a create is attempted for it. -/
theorem C10_exists_check_total :
    (∀ ro, item_exists_in_target ro = true ↔ ro = ReadOutcome.ok) ∧
    item_exists_in_target ReadOutcome.notFound = false ∧
    item_exists_in_target ReadOutcome.netError = false ∧
    (∀ (sc i : Nat) (r : Record) (ce : CreateOutcome) (st : MigState),
      (processItem sc i r ⟨ReadOutcome.netError, ce⟩ st).1 =
        [DestCall.readCheck r.id r.partition_key, DestCall.createItem r.id]) := by
  refine ⟨?_, rfl, rfl, ?_⟩
  · intro ro
    cases ro <;> simp [item_exists_in_target]
  · intro sc i r ce st
    cases ce <;> simp [processItem, item_exists_in_target]
